import Mathlib

/-!
Verification of the family-graph normalization and query engine of
`app.py` (LineAgeMap): a shallow embedding of the JSON data model, the
relationship/tree normalizers, the dataset loaders, the slug sanitizer
and the preview queries, together with proofs about them.

JSON values are modelled by the inductive type `Value`; Python `dict`s
are association lists (`Dict`) with first-match lookup and
in-place-update insertion, matching Python dict semantics for the string
keys used here.  Python truthiness, the `or` operator, `dict.get`,
`str()` and `isinstance` checks are embedded explicitly.  Character
classification (`isalnum`, `isspace`, `lower`) is modelled by Lean's
ASCII-correct `Char` functions; all inputs in the claims are ASCII.
`str()` of container values is abstracted by a placeholder string: no
endpoint resolved by the normalizer in any claim is a container, and no
theorem depends on that rendering.
-/

namespace App

/-- A JSON value, as produced by `json.loads` in `app.py`. -/
inductive Value where
  | null
  | bool (b : Bool)
  | int (n : Int)
  | str (s : String)
  | list (xs : List Value)
  | dict (kvs : List (String × Value))

/-- A Python `dict` with string keys: an ordered association list.
Keys are unique in any dict produced by `json.loads`; lookup is
first-match. -/
abbrev Dict := List (String × Value)

/-- Python `d.get(k)` returning `some` the stored value, `none` if the
key is absent. -/
def dget (d : Dict) (k : String) : Option Value :=
  match d with
  | [] => none
  | (k2, v) :: rest => if k2 = k then some v else dget rest k

/-- Python `k in d`. -/
def hasKey (d : Dict) (k : String) : Bool :=
  (dget d k).isSome

/-- Python `d.get(k)` with default `None`. -/
def getv (d : Dict) (k : String) : Value :=
  (dget d k).getD .null

/-- Python `d[k] = v`: replace in place if the key exists (keeping its
position), else append. -/
def dset (d : Dict) (k : String) (v : Value) : Dict :=
  match d with
  | [] => [(k, v)]
  | (k2, v2) :: rest => if k2 = k then (k, v) :: rest else (k2, v2) :: dset rest k v

/-- Python truthiness of a JSON value. -/
def truthy : Value → Bool
  | .null => false
  | .bool b => b
  | .int n => n != 0
  | .str s => s != ""
  | .list xs => !xs.isEmpty
  | .dict kvs => !kvs.isEmpty

/-- Python `a or b` (on values: `a` if truthy, else `b`). -/
def pyOr (a b : Value) : Value :=
  if truthy a then a else b

/-- Python `x is None`. -/
def isNull : Value → Bool
  | .null => true
  | _ => false

/-- Python `isinstance(x, list)`. -/
def isListV : Value → Bool
  | .list _ => true
  | _ => false

/-- Python `str(x)` for the scalar JSON values (`str(None) = "None"`,
`str(True) = "True"`, integers print in decimal).  The rendering of
container values is abstracted: the normalizer only ever stringifies
resolved endpoint values, which are scalars in every claim. -/
def pyStr : Value → String
  | .null => "None"
  | .bool b => if b then "True" else "False"
  | .int n => toString n
  | .str s => s
  | .list _ => "<list>"
  | .dict _ => "<dict>"

/-- `app.py` lines 185-190: the parent endpoint of a relationship
record, `r.get("parentId") or r.get("parent") or r.get("sourceId")
or r.get("source")`. -/
def resolvedParent (r : Dict) : Value :=
  pyOr (getv r "parentId") (pyOr (getv r "parent") (pyOr (getv r "sourceId") (getv r "source")))

/-- `app.py` lines 191-196: the child endpoint of a relationship
record, `r.get("childId") or r.get("child") or r.get("targetId")
or r.get("target")`. -/
def resolvedChild (r : Dict) : Value :=
  pyOr (getv r "childId") (pyOr (getv r "child") (pyOr (getv r "targetId") (getv r "target")))

/-- `app.py` lines 185-204, body of the per-record loop of
`_normalize_relationships`: resolve both endpoints, drop the record
(`continue`) if either is `None`, else shallow-copy it and overwrite
`parentId` and `childId` with the stringified endpoints. -/
def normalizeRelRecord (r : Dict) : Option Dict :=
  let parent := resolvedParent r
  let child := resolvedChild r
  if isNull parent || isNull child then none
  else some (dset (dset r "parentId" (.str (pyStr parent))) "childId" (.str (pyStr child)))

/-- One element of the input sequence: non-mapping elements are
skipped (`app.py` lines 182-183). -/
def normalizeRelElem : Value → Option Dict
  | .dict r => normalizeRelRecord r
  | _ => none

/-- `app.py` lines 167-206, `_normalize_relationships`: empty output on
non-list input, else the per-record normalization over the list in
order. -/
def normalize_relationships : Value → List Dict
  | .list rs => rs.filterMap normalizeRelElem
  | _ => []

/-- A normalized dataset: `{"people": [...], "relationships": [...]}`.
The relationships are always dicts (output of the normalizer); the
people are whatever list the input supplied. -/
structure Dataset where
  people : List Value
  relationships : List Dict

/-- `app.py` lines 296-304, `_normalize_tree`: resolve `people` through
`payload.get("people") or payload.get("persons") or payload.get("nodes")
or []` and `relationships` through `payload.get("relationships") or
payload.get("edges") or payload.get("links") or []`; coerce a non-list
`people` to `[]`; pass the relationships through the normalizer. -/
def _normalize_tree (payload : Dict) : Dataset :=
  let people := pyOr (getv payload "people")
    (pyOr (getv payload "persons") (pyOr (getv payload "nodes") (.list [])))
  let rels := pyOr (getv payload "relationships")
    (pyOr (getv payload "edges") (pyOr (getv payload "links") (.list [])))
  { people := match people with | .list xs => xs | _ => []
    relationships := normalize_relationships rels }

/-- `app.py` lines 209-226, `load_family_file`.  The argument is `none`
when the file does not exist (the function then returns the empty
dataset dict), else `some` of the parsed JSON dict.  The source mutates
`data` in place; the embedding threads the dict through the same four
steps: map `nodes` to `people` when `people` is absent and `nodes`
present, map `links` to `relationships` when `relationships` is absent
and `links` present, coerce a non-list `people` to `[]`, and replace
`relationships` by the normalizer output. -/
def load_family_file (file : Option Dict) : Dict :=
  match file with
  | none => [("people", .list []), ("relationships", .list [])]
  | some data =>
    let d1 := if !hasKey data "people" && hasKey data "nodes"
      then dset data "people" (pyOr (getv data "nodes") (.list [])) else data
    let d2 := if !hasKey d1 "relationships" && hasKey d1 "links"
      then dset d1 "relationships" (pyOr (getv d1 "links") (.list [])) else d1
    let d3 := if !isListV (getv d2 "people") then dset d2 "people" (.list []) else d2
    dset d3 "relationships" (.list ((normalize_relationships (getv d3 "relationships")).map .dict))

/-- The top-level alias resolution as the spec words it, used as the
refinement reference for the Tree Normalizer: try the candidate keys in
order, first truthy value wins, else the empty list. -/
def resolveAlias (payload : Dict) : List String → Value
  | [] => .list []
  | k :: rest => pyOr (getv payload k) (resolveAlias payload rest)

/-- An HTTP error raised by `flask.abort`: status code and description. -/
structure HttpError where
  code : Nat
  description : String

/-- `app.py` lines 282-293 and 307-312, `_load_sample_json` followed by
`load_sample_tree`.  The first argument is `none` when no candidate
sample file exists (`_load_sample_json` then aborts 404), else `some`
of the parsed JSON.  `load_sample_tree` normalizes the payload and
aborts 500 when the normalized dataset has no people. -/
def load_sample_tree (raw : Option Dict) (sample_id : String) : Except HttpError Dataset :=
  match raw with
  | none =>
    .error ⟨404, "Sample " ++ sample_id ++ " not found."⟩
  | some payload =>
    let tree := _normalize_tree payload
    if tree.people.isEmpty then
      .error ⟨500, "Sample " ++ sample_id ++ " loaded but produced 0 people. Check JSON schema/keys."⟩
    else .ok tree

/-- `app.py` lines 527-531 (and identically 557-561): the set of
stringified `childId` values of the relationship list, skipping falsy
`childId`s (`if child:`).  The Python `set` is modelled as the list of
collected values; only membership is ever used. -/
def childIdSet (rels : List Dict) : List String :=
  rels.filterMap (fun r =>
    let child := getv r "childId"
    if truthy child then some (pyStr child) else none)

/-- `app.py` line 533 (and 563): the people whose stringified `id` is
not in the child-id set. -/
def rootsOf (people : List Dict) (rels : List Dict) : List Dict :=
  people.filter (fun p => !(childIdSet rels).contains (pyStr (getv p "id")))

/-- `app.py` lines 533-534 (and 563-564): `roots[:2] if roots else
people[:2]` — the `parents` component of the tree preview, shared
verbatim by the `index` and `public_family` routes. -/
def tree_preview_parents (people : List Dict) (rels : List Dict) : List Dict :=
  let roots := rootsOf people rels
  if !roots.isEmpty then roots.take 2 else people.take 2

/-- Lexicographic comparison of strings as lists of characters by code
point — Python's `<=` on `str`. -/
def lexLe : List Char → List Char → Bool
  | [], _ => true
  | _ :: _, [] => false
  | a :: as, b :: bs =>
      if a.toNat < b.toNat then true
      else if b.toNat < a.toNat then false
      else lexLe as bs

theorem lexLe_total (a b : List Char) : lexLe a b = true ∨ lexLe b a = true := by
  induction a generalizing b with
  | nil => left; rfl
  | cons x xs ih =>
    cases b with
    | nil => right; rfl
    | cons y ys =>
      simp only [lexLe]
      split_ifs <;>
        first
          | (left; rfl)
          | (right; rfl)
          | exact ih ys

theorem lexLe_trans (a b c : List Char) (h1 : lexLe a b = true) (h2 : lexLe b c = true) :
    lexLe a c = true := by
  induction a generalizing b c with
  | nil => rfl
  | cons x xs ih =>
    cases b with
    | nil => simp [lexLe] at h1
    | cons y ys =>
      cases c with
      | nil => simp [lexLe] at h2
      | cons z zs =>
        simp only [lexLe] at h1 h2 ⊢
        split_ifs at h1 h2 ⊢ <;>
          first
            | rfl
            | exact ih ys zs h1 h2
            | exact Bool.noConfusion h1
            | exact Bool.noConfusion h2
            | omega

/-- `app.py` line 538: the sort key `str(p.get("name", ""))` of the
timeline sort. -/
def nameKey (p : Dict) : List Char :=
  (pyStr ((dget p "name").getD (.str ""))).data

/-- Ordering of people by sort key, as used by `timeline_people.sort`. -/
def nameLe (p q : Dict) : Prop :=
  lexLe (nameKey p) (nameKey q) = true

instance : DecidableRel nameLe := fun p q => by
  unfold nameLe; infer_instance

instance : IsTotal Dict nameLe :=
  ⟨fun a b => lexLe_total (nameKey a) (nameKey b)⟩

instance : IsTrans Dict nameLe :=
  ⟨fun a b c => lexLe_trans (nameKey a) (nameKey b) (nameKey c)⟩

/-- `app.py` lines 537-539 (`index` route): filter people with a truthy
`photo`, sort by `str(p.get("name", ""))`, keep the first 5.  Python
`list.sort` is a stable ascending sort; a stable ascending sort by a
total transitive key relation produces a unique result, so the stable
`insertionSort` models it exactly. -/
def timeline_preview_index (people : List Dict) : List Dict :=
  (List.insertionSort nameLe (people.filter (fun p => truthy (getv p "photo")))).take 5

/-- `app.py` lines 567-568 (`public_family` route): filter people with
a truthy `photo` and keep the first 5 — no sort on this path. -/
def timeline_preview_public (people : List Dict) : List Dict :=
  (people.filter (fun p => truthy (getv p "photo"))).take 5

/-- Python `str.strip` with a character class: drop matching characters
from both ends. -/
def pyStrip (p : Char → Bool) (l : List Char) : List Char :=
  ((l.dropWhile p).reverse.dropWhile p).reverse

/-- `app.py` lines 325-331, the per-character step of `slugify`:
alphanumerics pass through, `-`/`_`/`.` and whitespace become hyphens,
everything else is dropped. -/
def slugChar (c : Char) : Option Char :=
  if c.isAlphanum then some c
  else if c == Char.ofNat 45 || c == Char.ofNat 95 || c == Char.ofNat 46 then some (Char.ofNat 45)
  else if c.isWhitespace then some (Char.ofNat 45)
  else none

/-- Python `slug.replace("--", "-")`: replace every non-overlapping
occurrence of two hyphens by one, scanning left to right. -/
def replDD : List Char → List Char
  | c :: c2 :: cs =>
      if c == Char.ofNat 45 && c2 == Char.ofNat 45 then Char.ofNat 45 :: replDD cs
      else c :: replDD (c2 :: cs)
  | l => l

/-- Python `"--" in slug`. -/
def hasDD : List Char → Bool
  | c :: c2 :: cs => (c == Char.ofNat 45 && c2 == Char.ofNat 45) || hasDD (c2 :: cs)
  | _ => false

/-- The `while "--" in slug` loop of `app.py` lines 333-334, run with
an explicit iteration bound.  Each `replace` call strictly shrinks the
string while the guard holds, so `l.length` iterations always reach the
loop's exit condition (`collapseIter_noDD` below); the bounded form is
therefore the loop's exact semantics. -/
def collapseIter : Nat → List Char → List Char
  | 0, l => l
  | n + 1, l => if hasDD l then collapseIter n (replDD l) else l

/-- The collapse loop at its sufficient bound. -/
def collapseDD (l : List Char) : List Char :=
  collapseIter l.length l

/-- `app.py` lines 322-335, `slugify`: strip whitespace, lowercase, map
characters through `slugChar`, strip hyphens from both ends, collapse
double hyphens, truncate to 64 characters, default to `"family"` when
empty. -/
def slugify (s : String) : String :=
  let t := (pyStrip Char.isWhitespace s.data).map Char.toLower
  let out := t.filterMap slugChar
  let slug := pyStrip (fun c => c == Char.ofNat 45) out
  let slug := collapseDD slug
  let slug := slug.take 64
  if slug.isEmpty then "family" else String.mk slug

/-- Ordering of strings by code point, Python `<=` on `str`, used for
the lexicographic sort of the common-children query. -/
def strLe (a b : String) : Prop :=
  lexLe a.data b.data = true

instance : DecidableRel strLe := fun a b => by
  unfold strLe; infer_instance

instance : IsTotal String strLe :=
  ⟨fun a b => lexLe_total a.data b.data⟩

instance : IsTrans String strLe :=
  ⟨fun a b c => lexLe_trans a.data b.data c.data⟩

/-- Modelled from the spec: the common-children intersection query of
the Graph Query Layer (spec §4.4 item 2) has no implementation under
`src/`.  Following the spec's words, the children of a named parent are
the child ids of the relationships whose `parentId` is that parent; a
parent appearing in no relationship contributes the empty set. -/
def childrenOf (rels : List Dict) (pid : String) : List String :=
  rels.filterMap (fun r =>
    if pyStr (getv r "parentId") == pid then some (pyStr (getv r "childId")) else none)

/-- Modelled from the spec: intersect the two child-id sets, sort the
intersection lexicographically and cap it at the preview size 8. -/
def common_children (rels : List Dict) (a b : String) : List String :=
  let inter := ((childrenOf rels a).filter (fun c => (childrenOf rels b).contains c)).dedup
  (List.insertionSort strLe inter).take 8

/-! Helper lemmas about the embedding. -/

theorem dget_dset_self (d : Dict) (k : String) (v : Value) :
    dget (dset d k v) k = some v := by
  induction d with
  | nil => simp [dset, dget]
  | cons kv rest ih =>
    by_cases h : kv.1 = k
    · simp [dset, dget, h]
    · simp [dset, dget, h, ih]

theorem dget_dset_ne (d : Dict) (k k2 : String) (v : Value) (h : k2 ≠ k) :
    dget (dset d k v) k2 = dget d k2 := by
  induction d with
  | nil =>
    simp only [dset, dget]
    rw [if_neg (fun hh => h hh.symm)]
  | cons kv rest ih =>
    simp only [dset, dget]
    split_ifs with h1 h2 <;> simp_all [dget, Ne.symm h]

theorem getv_dset_self (d : Dict) (k : String) (v : Value) :
    getv (dset d k v) k = v := by
  simp [getv, dget_dset_self]

theorem getv_dset_ne (d : Dict) (k k2 : String) (v : Value) (h : k2 ≠ k) :
    getv (dset d k v) k2 = getv d k2 := by
  simp [getv, dget_dset_ne _ _ _ _ h]

theorem hasKey_dset_ne (d : Dict) (k k2 : String) (v : Value) (h : k2 ≠ k) :
    hasKey (dset d k v) k2 = hasKey d k2 := by
  simp [hasKey, dget_dset_ne _ _ _ _ h]

theorem isNull_eq_false_of_truthy {v : Value} (h : truthy v = true) : isNull v = false := by
  cases v <;> simp_all [truthy, isNull]

theorem pyOr_null (b : Value) : pyOr Value.null b = b := rfl

theorem pyOr_of_truthy {a : Value} (h : truthy a = true) (b : Value) : pyOr a b = a := by
  simp [pyOr, h]

theorem mem_of_contains {l : List String} {a : String} (h : l.contains a = true) : a ∈ l :=
  List.elem_iff.mp h

theorem contains_of_mem {l : List String} {a : String} (h : a ∈ l) : l.contains a = true :=
  List.elem_iff.mpr h

theorem toNat_ofNat_of_lt (n : Nat) (h : n < 55296) : (Char.ofNat n).toNat = n := by
  rw [Char.ofNat, dif_pos (Or.inl h)]
  rfl

theorem isUpper_eq (c : Char) : c.isUpper = (decide (65 ≤ c.toNat) && decide (c.toNat ≤ 90)) := rfl

theorem isLower_eq (c : Char) : c.isLower = (decide (97 ≤ c.toNat) && decide (c.toNat ≤ 122)) := rfl

theorem isUpper_toLower (c : Char) : (c.toLower).isUpper = false := by
  show (if 65 ≤ c.toNat ∧ c.toNat ≤ 90 then Char.ofNat (c.toNat + 32) else c).isUpper = false
  split
  case isTrue h =>
    have hv : (Char.ofNat (c.toNat + 32)).toNat = c.toNat + 32 :=
      toNat_ofNat_of_lt _ (by omega)
    rw [isUpper_eq, hv]
    have h2 : ¬ (c.toNat + 32 ≤ 90) := by omega
    simp [h2]
  case isFalse h =>
    rw [isUpper_eq]
    rcases not_and_or.mp h with h | h <;> simp [h]

/-- A character kept by `slugChar` after lowercasing is a lowercase
letter, a digit, or a hyphen. -/
theorem slugChar_toLower {c d : Char} (h : slugChar c.toLower = some d) :
    (d.isLower || d.isDigit || d == Char.ofNat 45) = true := by
  unfold slugChar at h
  split at h
  case isTrue halnum =>
    cases h
    have hup := isUpper_toLower c
    have : (c.toLower.isUpper || c.toLower.isLower || c.toLower.isDigit) = true := by
      simpa [Char.isAlphanum, Char.isAlpha, Bool.or_assoc] using halnum
    simp_all
  case isFalse =>
    split at h
    · cases h; simp
    · split at h
      · cases h; simp
      · cases h

theorem mem_replDD {l : List Char} {c : Char} (h : c ∈ replDD l) :
    c ∈ l ∨ c = Char.ofNat 45 := by
  induction l using replDD.induct with
  | case1 a a2 cs hc ih =>
    rw [replDD, if_pos hc] at h
    rcases List.mem_cons.mp h with h | h
    · right; exact h
    · rcases ih h with h | h
      · left; exact List.mem_cons_of_mem _ (List.mem_cons_of_mem _ h)
      · right; exact h
  | case2 a a2 cs hc ih =>
    rw [replDD, if_neg hc] at h
    rcases List.mem_cons.mp h with h | h
    · left; simp [h]
    · rcases ih h with h | h
      · left; exact List.mem_cons_of_mem _ h
      · right; exact h
  | case3 l hl =>
    left
    rw [replDD] at h
    · exact h
    · exact hl

theorem replDD_length_le (l : List Char) : (replDD l).length ≤ l.length := by
  induction l using replDD.induct with
  | case1 a a2 cs hc ih =>
    rw [replDD, if_pos hc]
    simp only [List.length_cons]
    omega
  | case2 a a2 cs hc ih =>
    rw [replDD, if_neg hc]
    simp only [List.length_cons] at ih ⊢
    omega
  | case3 l hl =>
    rw [replDD]
    exact hl

theorem replDD_length_lt {l : List Char} (h : hasDD l = true) :
    (replDD l).length < l.length := by
  induction l using replDD.induct with
  | case1 a a2 cs hc ih =>
    rw [replDD, if_pos hc]
    have := replDD_length_le cs
    simp only [List.length_cons]
    omega
  | case2 a a2 cs hc ih =>
    rw [hasDD] at h
    simp only [Bool.or_eq_true] at h
    have h2 : hasDD (a2 :: cs) = true := by
      rcases h with h | h
      · exact absurd h hc
      · exact h
    rw [replDD, if_neg hc]
    have := ih h2
    simp only [List.length_cons] at this ⊢
    omega
  | case3 l hl =>
    exfalso
    cases l with
    | nil => simp [hasDD] at h
    | cons a rest =>
      cases rest with
      | nil => simp [hasDD] at h
      | cons a2 cs => exact hl a a2 cs rfl

theorem hasDD_collapseIter {n : Nat} {l : List Char} (h : l.length ≤ n) :
    hasDD (collapseIter n l) = false := by
  induction n generalizing l with
  | zero =>
    have : l = [] := List.length_eq_zero.mp (Nat.le_zero.mp h)
    subst this
    rfl
  | succ n ih =>
    rw [collapseIter]
    split
    case isTrue hdd =>
      exact ih (by have := replDD_length_lt hdd; omega)
    case isFalse hdd =>
      exact (Bool.not_eq_true _) ▸ hdd

theorem mem_collapseIter {n : Nat} {l : List Char} {c : Char} (h : c ∈ collapseIter n l) :
    c ∈ l ∨ c = Char.ofNat 45 := by
  induction n generalizing l with
  | zero => left; exact h
  | succ n ih =>
    rw [collapseIter] at h
    split at h
    · rcases ih h with h | h
      · exact mem_replDD h
      · right; exact h
    · left; exact h

/-- Absence of a double hyphen is equivalent to the chain condition on
adjacent characters. -/
theorem hasDD_eq_false_iff_chain {l : List Char} :
    hasDD l = false ↔ l.Chain' (fun a b => ¬ (a = Char.ofNat 45 ∧ b = Char.ofNat 45)) := by
  induction l with
  | nil => simp [hasDD]
  | cons a rest ih =>
    cases rest with
    | nil => simp [hasDD]
    | cons a2 rest2 =>
      rw [hasDD, List.chain'_cons, ← ih]
      simp only [Bool.or_eq_false_iff, Bool.and_eq_false_iff, beq_eq_false_iff_ne, ne_eq]
      tauto

theorem pyStrip_subset (p : Char → Bool) (l : List Char) : pyStrip p l ⊆ l := by
  unfold pyStrip
  intro c hc
  rw [List.mem_reverse] at hc
  have h1 := (List.dropWhile_sublist p).subset hc
  rw [List.mem_reverse] at h1
  exact (List.dropWhile_sublist p).subset h1

theorem hasDD_take_of_hasDD_eq_false {l : List Char} (h : hasDD l = false) (n : Nat) :
    hasDD (l.take n) = false :=
  hasDD_eq_false_iff_chain.mpr ((hasDD_eq_false_iff_chain.mp h).take n)

theorem hasDD_slug (l : List Char) : hasDD ((collapseDD l).take 64) = false :=
  hasDD_take_of_hasDD_eq_false (hasDD_collapseIter (Nat.le_refl _)) 64

/-! Claim theorems. -/

/-- C10: endpoint resolution in the relationship normalizer uses Python
truthiness, not key presence.  A record whose only parent key holds the
falsy value `0` resolves its parent to `None` (the chain skips the falsy
value and bottoms out on the missing last key) and is silently dropped,
while a record carrying the empty string under the last fallback key
`source` resolves to that empty string (only a final resolved value of
`None` triggers the drop) and is kept with `parentId` set to `""`. -/
theorem C10_falsy_endpoint_asymmetry :
    normalize_relationships (.list [.dict [("parentId", .int 0), ("childId", .int 1)]]) = [] ∧
    normalize_relationships (.list [.dict [("source", .str ""), ("target", .str "b")]]) =
      [[("source", Value.str ""), ("target", .str "b"),
        ("parentId", .str ""), ("childId", .str "b")]] ∧
    resolvedParent [("parentId", .int 0), ("childId", .int 1)] = .null ∧
    resolvedParent [("source", .str "")] = .str "" :=
  ⟨rfl, rfl, rfl, rfl⟩

/-- C6: the relationship normalizer returns the empty sequence on any
non-sequence input; it skips non-mapping elements and elements whose
resolved parent or child endpoint is `None`; every remaining element
contributes exactly one output record in input order; output length is
at most input length. -/
theorem C6_relationship_drop_policy :
    (∀ v : Value, isListV v = false → normalize_relationships v = []) ∧
    (∀ rs : List Value, (normalize_relationships (.list rs)).length ≤ rs.length) ∧
    (∀ v : Value, (∀ kvs, v ≠ .dict kvs) → normalizeRelElem v = none) ∧
    (∀ r : Dict, (isNull (resolvedParent r) || isNull (resolvedChild r)) = true →
      normalizeRelElem (.dict r) = none) ∧
    (∀ r : Dict, (isNull (resolvedParent r) || isNull (resolvedChild r)) = false →
      (normalizeRelElem (.dict r)).isSome = true) ∧
    (∀ v rs, normalizeRelElem v = none →
      normalize_relationships (.list (v :: rs)) = normalize_relationships (.list rs)) ∧
    (∀ v rs o, normalizeRelElem v = some o →
      normalize_relationships (.list (v :: rs)) = o :: normalize_relationships (.list rs)) := by
  refine ⟨?_, ?_, ?_, ?_, ?_, ?_, ?_⟩
  · intro v h
    cases v <;> first | rfl | simp [isListV] at h
  · intro rs
    exact List.length_filterMap_le _ _
  · intro v h
    cases v <;> first | rfl | exact absurd rfl (h _)
  · intro r h
    simp [normalizeRelElem, normalizeRelRecord, h]
  · intro r h
    simp [normalizeRelElem, normalizeRelRecord, h]
  · intro v rs h
    show (v :: rs).filterMap normalizeRelElem = rs.filterMap normalizeRelElem
    rw [List.filterMap_cons_none h]
  · intro v rs o h
    show (v :: rs).filterMap normalizeRelElem = o :: rs.filterMap normalizeRelElem
    rw [List.filterMap_cons_some h]

/-- C6 witness: the drop policy evaluated on concrete inputs — a
non-list input, then a list holding a non-mapping element, a record
with no child keys, and a well-formed record. -/
theorem C6_relationship_drop_policy_witness :
    normalize_relationships (.str "zoo") = [] ∧
    normalize_relationships
        (.list [.int 5, .dict [("parentId", .str "a")],
                .dict [("parent", .str "a"), ("child", .str "b")]]) =
      [[("parent", Value.str "a"), ("child", .str "b"),
        ("parentId", .str "a"), ("childId", .str "b")]] := by
  constructor
  · exact C6_relationship_drop_policy.1 (Value.str "zoo") rfl
  · rw [C6_relationship_drop_policy.2.2.2.2.2.1 (Value.int 5)
      [Value.dict [("parentId", Value.str "a")],
       Value.dict [("parent", Value.str "a"), ("child", Value.str "b")]] rfl]
    rw [C6_relationship_drop_policy.2.2.2.2.2.1 (Value.dict [("parentId", Value.str "a")])
      [Value.dict [("parent", Value.str "a"), ("child", Value.str "b")]]
      (C6_relationship_drop_policy.2.2.2.1 [("parentId", Value.str "a")] rfl)]
    rw [C6_relationship_drop_policy.2.2.2.2.2.2
      (Value.dict [("parent", Value.str "a"), ("child", Value.str "b")]) []
      [("parent", Value.str "a"), ("child", Value.str "b"),
       ("parentId", Value.str "a"), ("childId", Value.str "b")] rfl]
    rfl

/-- C7: every record kept by the relationship normalizer is a shallow
copy of the original mapping in which only `parentId` and `childId` are
added or overwritten with the string forms of the resolved endpoints;
every other key keeps its original value, and both `parentId` and
`childId` are present with string values in every output record. -/
theorem C7_kept_record_frame (r o : Dict) (h : normalizeRelRecord r = some o) :
    getv o "parentId" = .str (pyStr (resolvedParent r)) ∧
    getv o "childId" = .str (pyStr (resolvedChild r)) ∧
    (∀ k, k ≠ "parentId" → k ≠ "childId" → dget o k = dget r k) ∧
    (∃ ps, dget o "parentId" = some (.str ps)) ∧
    (∃ cs, dget o "childId" = some (.str cs)) := by
  simp only [normalizeRelRecord] at h
  split at h
  · exact Option.noConfusion h
  · have ho : o = dset (dset r "parentId" (.str (pyStr (resolvedParent r))))
        "childId" (.str (pyStr (resolvedChild r))) := (Option.some.inj h).symm
    subst ho
    refine ⟨?_, ?_, ?_, ?_, ?_⟩
    · rw [getv_dset_ne _ _ _ _ (by decide), getv_dset_self]
    · rw [getv_dset_self]
    · intro k h1 h2
      rw [dget_dset_ne _ _ _ _ h2, dget_dset_ne _ _ _ _ h1]
    · exact ⟨pyStr (resolvedParent r), by
        rw [dget_dset_ne _ _ _ _ (by decide), dget_dset_self]⟩
    · exact ⟨pyStr (resolvedChild r), by rw [dget_dset_self]⟩

/-- C7 witness: the frame property evaluated on a concrete record with
an extra key `note`, which survives unchanged while `parentId` and
`childId` are added. -/
theorem C7_kept_record_frame_witness :
    getv [("source", Value.str "a"), ("target", Value.str "b"), ("note", Value.int 7),
          ("parentId", Value.str "a"), ("childId", Value.str "b")] "parentId" = Value.str "a" ∧
    getv [("source", Value.str "a"), ("target", Value.str "b"), ("note", Value.int 7),
          ("parentId", Value.str "a"), ("childId", Value.str "b")] "childId" = Value.str "b" ∧
    dget [("source", Value.str "a"), ("target", Value.str "b"), ("note", Value.int 7),
          ("parentId", Value.str "a"), ("childId", Value.str "b")] "note" = some (Value.int 7) := by
  have h := C7_kept_record_frame
    [("source", Value.str "a"), ("target", Value.str "b"), ("note", Value.int 7)]
    [("source", Value.str "a"), ("target", Value.str "b"), ("note", Value.int 7),
     ("parentId", Value.str "a"), ("childId", Value.str "b")] rfl
  exact ⟨h.1, h.2.1, (h.2.2.1 "note" (by decide) (by decide)).trans rfl⟩

/-- C8: a sample load whose payload normalizes to zero people yields
the HTTP 500 Structurally-Invalid-Dataset fault with a diagnostic
message, never a successful empty dataset; the missing-file path yields
404, so the two faults are distinct. -/
theorem C8_structurally_invalid_dataset (raw : Dict) (sid : String) :
    ((_normalize_tree raw).people = [] →
      load_sample_tree (some raw) sid =
        .error ⟨500, "Sample " ++ sid ++ " loaded but produced 0 people. Check JSON schema/keys."⟩) ∧
    (∀ d, load_sample_tree (some raw) sid = .ok d → d.people ≠ []) ∧
    (∀ e, load_sample_tree none sid = .error e → e.code = 404) ∧
    (∀ e, (_normalize_tree raw).people = [] →
      load_sample_tree (some raw) sid = .error e → e.code = 500) := by
  have key : (_normalize_tree raw).people = [] →
      load_sample_tree (some raw) sid =
        .error ⟨500, "Sample " ++ sid ++ " loaded but produced 0 people. Check JSON schema/keys."⟩ := by
    intro h
    simp [load_sample_tree, h]
  refine ⟨key, ?_, ?_, ?_⟩
  · intro d hd hdp
    simp only [load_sample_tree] at hd
    split at hd
    · exact Except.noConfusion hd
    · rename_i hne
      rw [Except.ok.inj hd, hdp] at hne
      simp at hne
  · intro e he
    simp only [load_sample_tree] at he
    rw [← Except.error.inj he]
  · intro e h he
    rw [key h] at he
    rw [← Except.error.inj he]

/-- C8 witness: a concrete payload whose `nodes` value is not a list
normalizes to zero people and produces exactly the 500 fault. -/
theorem C8_structurally_invalid_dataset_witness :
    load_sample_tree (some [("nodes", Value.str "oops")]) "stark" =
      .error ⟨500, "Sample stark loaded but produced 0 people. Check JSON schema/keys."⟩ :=
  (C8_structurally_invalid_dataset [("nodes", Value.str "oops")] "stark").1 rfl

/-- C5 counterexample: the records `{"parent": "", "child": "b"}` and
`{"source": "", "target": "b"}` carry the same endpoint values under
two of the four key conventions, yet normalization drops the first
(the empty string is falsy, so the chain resolves to `None`) while it
keeps the second with canonical `parentId` set to `""` (the last
fallback key is returned without a truthiness check) — the canonical
results are not identical as the claim requires. -/
theorem C5_counterexample :
    normalize_relationships (.list [.dict [("parent", .str ""), ("child", .str "b")]]) = [] ∧
    (normalize_relationships (.list [.dict [("source", .str ""), ("target", .str "b")]])).length
      = 1 ∧
    getv ((normalize_relationships
        (.list [.dict [("source", .str ""), ("target", .str "b")]])).headD [])
      "parentId" = .str "" :=
  ⟨rfl, rfl, rfl⟩

/-- C5 (amended): for truthy endpoint values, relationship records that
are semantically equivalent under the four historical key conventions
all normalize to kept records with identical canonical stringified
`parentId` and `childId` values; for falsy endpoint values the
conventions diverge (see the counterexample), so the equivalence is
restricted to truthy endpoints. -/
theorem C5_key_convention_equivalence (p c : Value)
    (hp : truthy p = true) (hc : truthy c = true) :
    ∀ r ∈ [[("parentId", p), ("childId", c)], [("parent", p), ("child", c)],
           [("sourceId", p), ("targetId", c)], [("source", p), ("target", c)]],
      (normalizeRelRecord r).isSome = true ∧
      getv ((normalizeRelRecord r).getD []) "parentId" = .str (pyStr p) ∧
      getv ((normalizeRelRecord r).getD []) "childId" = .str (pyStr c) := by
  have hpn := isNull_eq_false_of_truthy hp
  have hcn := isNull_eq_false_of_truthy hc
  intro r hr
  fin_cases hr <;>
    refine ⟨?_, ?_, ?_⟩ <;>
      simp [normalizeRelRecord, resolvedParent, resolvedChild, getv, dget, dset,
        pyOr_null, pyOr_of_truthy hp, pyOr_of_truthy hc, hpn, hcn]

/-- C5 witness: the equivalence evaluated at the truthy endpoints
`"a"`, `"b"` under the `(source, target)` convention. -/
theorem C5_key_convention_equivalence_witness :
    getv ((normalizeRelRecord [("source", Value.str "a"), ("target", Value.str "b")]).getD [])
      "parentId" = Value.str "a" ∧
    getv ((normalizeRelRecord [("source", Value.str "a"), ("target", Value.str "b")]).getD [])
      "childId" = Value.str "b" := by
  have h := C5_key_convention_equivalence (Value.str "a") (Value.str "b") rfl rfl
    [("source", Value.str "a"), ("target", Value.str "b")]
    (List.mem_cons_of_mem _ (List.mem_cons_of_mem _
      (List.mem_cons_of_mem _ (List.mem_cons_self _ _))))
  exact ⟨h.2.1, h.2.2⟩

/-- C3 counterexample: a payload whose only people-carrying key is
`persons` resolves to those people through the Tree Normalizer, but the
per-file load path (`load_family_file`) does not recognize `persons` at
all and yields an empty `people` list — the claimed alias resolution
does not hold on every dataset-loading path. -/
theorem C3_counterexample :
    getv (load_family_file
        (some [("persons", Value.list [Value.dict [("id", Value.str "x")]])])) "people" =
      Value.list [] ∧
    (_normalize_tree [("persons", Value.list [Value.dict [("id", Value.str "x")]])]).people =
      [Value.dict [("id", Value.str "x")]] :=
  ⟨rfl, rfl⟩

/-- C3 (amended): the first-truthy alias resolution over `people`,
`persons`, `nodes` (and `relationships`, `edges`, `links`) holds for
the Tree Normalizer `_normalize_tree`, where a present-but-falsy
earlier key falls through to the next; the per-file load path
`load_family_file` instead supports only the `nodes` and `links`
aliases and selects them by key presence, so a present-but-empty
`people` list does not fall through; on every loading path the
`relationships` field is the output of the Relationship Normalizer,
never the raw input value. -/
theorem C3_alias_resolution (payload : Dict) :
    (_normalize_tree payload).people =
      (match resolveAlias payload ["people", "persons", "nodes"] with
        | .list xs => xs
        | _ => []) ∧
    (_normalize_tree payload).relationships =
      normalize_relationships (resolveAlias payload ["relationships", "edges", "links"]) ∧
    (∀ xs, getv payload "people" = .list [] → getv payload "persons" = .list xs → xs ≠ [] →
      (_normalize_tree payload).people = xs) ∧
    (∃ v, getv (load_family_file (some payload)) "relationships" =
      .list ((normalize_relationships v).map .dict)) ∧
    getv (load_family_file none) "relationships" =
      .list ((normalize_relationships .null).map .dict) ∧
    (∀ v, dget payload "people" = some v → isListV v = true →
      getv (load_family_file (some payload)) "people" = v) ∧
    (∀ xs, dget payload "people" = none → dget payload "nodes" = some (.list xs) →
      getv (load_family_file (some payload)) "people" = .list xs) := by
  refine ⟨rfl, rfl, ?_, ?_, ?_, ?_, ?_⟩
  · intro xs h1 h2 hne
    have ht : truthy (Value.list xs) = true := by
      cases xs with
      | nil => exact absurd rfl hne
      | cons a as => rfl
    show (match pyOr (getv payload "people") (pyOr (getv payload "persons")
        (pyOr (getv payload "nodes") (.list []))) with
      | Value.list ys => ys
      | _ => []) = xs
    rw [h1, h2]
    show (match pyOr (Value.list xs) (pyOr (getv payload "nodes") (.list [])) with
      | Value.list ys => ys
      | _ => []) = xs
    rw [pyOr_of_truthy ht]
  · simp only [load_family_file]
    exact ⟨_, getv_dset_self _ _ _⟩
  · rfl
  · intro v hv hlist
    have hgv : getv payload "people" = v := by simp [getv, hv]
    have hk : hasKey payload "people" = true := by simp [hasKey, hv]
    have hc1 : (!hasKey payload "people" && hasKey payload "nodes") = false := by simp [hk]
    by_cases h2 : (!hasKey payload "relationships" && hasKey payload "links") = true <;>
      simp [load_family_file, hc1, h2, hgv, hlist, getv_dset_ne, getv_dset_self, hasKey_dset_ne]
  · intro xs h1 h2
    have hk1 : hasKey payload "people" = false := by simp [hasKey, h1]
    have hk2 : hasKey payload "nodes" = true := by simp [hasKey, h2]
    have hgn : getv payload "nodes" = Value.list xs := by simp [getv, h2]
    have hpx : pyOr (Value.list xs) (Value.list []) = Value.list xs := by
      cases xs with
      | nil => rfl
      | cons a as => exact @pyOr_of_truthy (Value.list (a :: as)) rfl (Value.list [])
    have hc1 : (!hasKey payload "people" && hasKey payload "nodes") = true := by
      simp [hk1, hk2]
    by_cases hc2 : (!hasKey payload "relationships" && hasKey payload "links") = true <;>
      simp [load_family_file, hc1, hc2, hgn, hpx, hasKey_dset_ne, getv_dset_ne,
        getv_dset_self, isListV]

/-- C3 witness: the Tree Normalizer falls through a present-but-empty
`people` to `persons`; the per-file path keeps a present-but-empty
`people` even when `nodes` is present, and maps `nodes` to `people`
when `people` is absent. -/
theorem C3_alias_resolution_witness :
    (_normalize_tree [("people", Value.list []),
        ("persons", Value.list [Value.str "p1"])]).people = [Value.str "p1"] ∧
    getv (load_family_file (some [("people", Value.list []),
        ("nodes", Value.list [Value.str "n1"])])) "people" = Value.list [] ∧
    getv (load_family_file (some [("nodes", Value.list [Value.str "n1"])])) "people" =
      Value.list [Value.str "n1"] := by
  refine ⟨?_, ?_, ?_⟩
  · exact (C3_alias_resolution _).2.2.1 [Value.str "p1"] rfl rfl (by simp)
  · exact (C3_alias_resolution _).2.2.2.2.2.1 (Value.list []) rfl rfl
  · exact (C3_alias_resolution _).2.2.2.2.2.2 [Value.str "n1"] rfl rfl

/-- C4 counterexample: the root check collects only truthy `childId`
values (`if child:`), so a person whose stringified id is the empty
string qualifies as a root even though `""` appears as a `childId` in
the relationship set — against the claimed iff.  Such a relationship is
reachable through the normalizer (`target` may hold an empty string). -/
theorem C4_counterexample :
    normalize_relationships
        (.list [.dict [("parentId", Value.str "p"), ("target", Value.str "")]]) =
      [[("parentId", Value.str "p"), ("target", Value.str ""), ("childId", Value.str "")]] ∧
    pyStr (getv [("parentId", Value.str "p"), ("target", Value.str ""),
        ("childId", Value.str "")] "childId") =
      pyStr (getv [("id", Value.str "")] "id") ∧
    rootsOf [[("id", Value.str "")]]
        [[("parentId", Value.str "p"), ("target", Value.str ""), ("childId", Value.str "")]] =
      [[("id", Value.str "")]] ∧
    tree_preview_parents [[("id", Value.str "")]]
        [[("parentId", Value.str "p"), ("target", Value.str ""), ("childId", Value.str "")]] =
      [[("id", Value.str "")]] := by
  exact ⟨rfl, rfl, rfl, rfl⟩

/-- C4 (amended): in the tree preview a person qualifies as a root iff
their stringified `id` never appears among the stringified truthy
`childId` values of the relationship set (falsy `childId`s are ignored
when the child-id set is collected); the preview holds at most 2 roots;
when no person qualifies it falls back to the first 2 people in
original order, so it is non-empty whenever at least one person exists;
with relationships A→C and B→C over people {A, B, C} the preview is
exactly [A, B]. -/
theorem C4_root_detection (people rels : List Dict) :
    (∀ p, p ∈ rootsOf people rels ↔
      p ∈ people ∧ pyStr (getv p "id") ∉ childIdSet rels) ∧
    (tree_preview_parents people rels).length ≤ 2 ∧
    (rootsOf people rels = [] → tree_preview_parents people rels = people.take 2) ∧
    (people ≠ [] → tree_preview_parents people rels ≠ []) ∧
    tree_preview_parents
      [[("id", Value.str "A")], [("id", Value.str "B")], [("id", Value.str "C")]]
      [[("parentId", Value.str "A"), ("childId", Value.str "C")],
       [("parentId", Value.str "B"), ("childId", Value.str "C")]] =
      [[("id", Value.str "A")], [("id", Value.str "B")]] := by
  refine ⟨?_, ?_, ?_, ?_, rfl⟩
  · intro p
    simp only [rootsOf, List.mem_filter]
    constructor
    · rintro ⟨hp, hc⟩
      refine ⟨hp, fun hm => ?_⟩
      rw [contains_of_mem hm] at hc
      exact Bool.noConfusion hc
    · rintro ⟨hp, hm⟩
      refine ⟨hp, ?_⟩
      cases hc : (childIdSet rels).contains (pyStr (getv p "id"))
      · rfl
      · exact absurd (mem_of_contains hc) hm
  · simp only [tree_preview_parents]
    split
    · exact List.length_take_le _ _
    · exact List.length_take_le _ _
  · intro h
    simp [tree_preview_parents, h]
  · intro hne h
    simp only [tree_preview_parents] at h
    split at h
    · rename_i hr
      rcases List.take_eq_nil_iff.mp h with h2 | h2
      · exact absurd h2 (by decide)
      · rw [h2] at hr
        exact Bool.noConfusion hr
    · rename_i hr
      rcases List.take_eq_nil_iff.mp h with h2 | h2
      · exact absurd h2 (by decide)
      · exact hne h2

/-- C4 witness: the amended root characterization applied to concrete
datasets — the A/B/C example via the membership iff, and the fallback
on a dataset whose only person is its own child. -/
theorem C4_root_detection_witness :
    ([("id", Value.str "A")] ∈ rootsOf
      [[("id", Value.str "A")], [("id", Value.str "B")], [("id", Value.str "C")]]
      [[("parentId", Value.str "A"), ("childId", Value.str "C")],
       [("parentId", Value.str "B"), ("childId", Value.str "C")]]) ∧
    tree_preview_parents [[("id", Value.str "s")]]
        [[("parentId", Value.str "s"), ("childId", Value.str "s")]] =
      [[("id", Value.str "s")]] ∧
    tree_preview_parents [[("id", Value.str "s")]]
        [[("parentId", Value.str "s"), ("childId", Value.str "s")]] ≠ [] := by
  refine ⟨?_, ?_, ?_⟩
  · refine ((C4_root_detection _ _).1 _).mpr ⟨by simp, ?_⟩
    intro hm
    simp [childIdSet, getv, dget, truthy, pyStr] at hm
  · exact (C4_root_detection [[("id", Value.str "s")]]
      [[("parentId", Value.str "s"), ("childId", Value.str "s")]]).2.2.1 rfl
  · exact (C4_root_detection [[("id", Value.str "s")]]
      [[("parentId", Value.str "s"), ("childId", Value.str "s")]]).2.2.2.1
      (List.cons_ne_nil _ _)

/-- C2 counterexample: the public-family call site does not sort.  Two
people with photos named "b" and "a" are returned in original order
("b" first), which is not the lexicographic order the claim requires at
every call site; the landing-page call site does sort them. -/
theorem C2_counterexample :
    timeline_preview_public
        [[("name", Value.str "b"), ("photo", Value.str "x")],
         [("name", Value.str "a"), ("photo", Value.str "y")]] =
      [[("name", Value.str "b"), ("photo", Value.str "x")],
       [("name", Value.str "a"), ("photo", Value.str "y")]] ∧
    lexLe (pyStr (getv [("name", Value.str "b"), ("photo", Value.str "x")] "name")).data
      (pyStr (getv [("name", Value.str "a"), ("photo", Value.str "y")] "name")).data = false ∧
    timeline_preview_index
        [[("name", Value.str "b"), ("photo", Value.str "x")],
         [("name", Value.str "a"), ("photo", Value.str "y")]] =
      [[("name", Value.str "a"), ("photo", Value.str "y")],
       [("name", Value.str "b"), ("photo", Value.str "x")]] :=
  ⟨rfl, by decide, rfl⟩

/-- C2 (amended): both call sites filter the people to those with a
truthy `photo` and cap the preview at 5; the landing-page call site
additionally sorts by the name key `str(p.get("name", ""))` — the
empty-string surrogate applies when `name` is missing — while the
public-family call site returns the first 5 photo-people in original
dataset order without sorting. -/
theorem C2_photo_preview (people : List Dict) :
    (∀ p ∈ timeline_preview_index people, truthy (getv p "photo") = true) ∧
    List.Sorted nameLe (timeline_preview_index people) ∧
    (timeline_preview_index people).length ≤ 5 ∧
    ((people.filter (fun p => truthy (getv p "photo"))).length ≤ 5 →
      (timeline_preview_index people).Perm
        (people.filter (fun p => truthy (getv p "photo")))) ∧
    timeline_preview_public people =
      (people.filter (fun p => truthy (getv p "photo"))).take 5 ∧
    List.Sublist (timeline_preview_public people) people ∧
    (∀ p ∈ timeline_preview_public people, truthy (getv p "photo") = true) ∧
    (timeline_preview_public people).length ≤ 5 ∧
    (∀ p : Dict, dget p "name" = none → nameKey p = []) := by
  refine ⟨?_, ?_, ?_, ?_, rfl, ?_, ?_, ?_, ?_⟩
  · intro p hp
    have h1 := List.take_subset _ _ hp
    have h2 := (List.perm_insertionSort nameLe _).mem_iff.mp h1
    exact (List.mem_filter.mp h2).2
  · exact List.Pairwise.sublist (List.take_sublist _ _)
      (List.sorted_insertionSort nameLe _)
  · exact List.length_take_le _ _
  · intro h
    have hl : (List.insertionSort nameLe
        (people.filter (fun p => truthy (getv p "photo")))).length ≤ 5 := by
      rw [(List.perm_insertionSort nameLe _).length_eq]
      exact h
    show (List.insertionSort nameLe _).take 5 |>.Perm _
    rw [List.take_of_length_le hl]
    exact List.perm_insertionSort nameLe _
  · exact (List.take_sublist _ _).trans (List.filter_sublist _)
  · intro p hp
    exact (List.mem_filter.mp (List.take_subset _ _ hp)).2
  · exact List.length_take_le _ _
  · intro p h
    simp [nameKey, h, pyStr]

/-- C2 witness: the amended preview properties applied to a concrete
two-person list whose photo-people number at most 5, so the landing
preview is a permutation of the filtered people. -/
theorem C2_photo_preview_witness :
    List.Sorted nameLe (timeline_preview_index
      [[("name", Value.str "b"), ("photo", Value.str "x")],
       [("name", Value.str "a"), ("photo", Value.str "y")]]) ∧
    (timeline_preview_index
      [[("name", Value.str "b"), ("photo", Value.str "x")],
       [("name", Value.str "a"), ("photo", Value.str "y")]]).Perm
      ([[("name", Value.str "b"), ("photo", Value.str "x")],
        [("name", Value.str "a"), ("photo", Value.str "y")]].filter
        (fun p => truthy (getv p "photo"))) := by
  have h := C2_photo_preview
    [[("name", Value.str "b"), ("photo", Value.str "x")],
     [("name", Value.str "a"), ("photo", Value.str "y")]]
  exact ⟨h.2.1, h.2.2.2.1 (by decide)⟩

/-- C1 (modelled from the spec): the common-children query returns a
lexicographically sorted list of at most 8 child ids, each of which is
a direct child of both named parents; when the deduplicated
intersection fits under the cap the result contains exactly the common
children; a parent appearing in no relationship contributes an empty
child set, so the result is empty rather than an error; on the
eddard/catelyn example the result is exactly ["robb"]. -/
theorem C1_common_children_intersection (rels : List Dict) (a b : String) :
    List.Sorted strLe (common_children rels a b) ∧
    (common_children rels a b).length ≤ 8 ∧
    (∀ c, c ∈ common_children rels a b →
      c ∈ childrenOf rels a ∧ c ∈ childrenOf rels b) ∧
    ((((childrenOf rels a).filter
          (fun c => (childrenOf rels b).contains c)).dedup).length ≤ 8 →
      ∀ c, c ∈ childrenOf rels a → c ∈ childrenOf rels b →
        c ∈ common_children rels a b) ∧
    ((∀ r ∈ rels, pyStr (getv r "parentId") ≠ a) → common_children rels a b = []) ∧
    common_children
      [[("parentId", Value.str "eddard"), ("childId", Value.str "robb")],
       [("parentId", Value.str "eddard"), ("childId", Value.str "sansa")],
       [("parentId", Value.str "catelyn"), ("childId", Value.str "robb")],
       [("parentId", Value.str "catelyn"), ("childId", Value.str "arya")]]
      "eddard" "catelyn" = ["robb"] := by
  refine ⟨?_, ?_, ?_, ?_, ?_, rfl⟩
  · exact List.Pairwise.sublist (List.take_sublist _ _)
      (List.sorted_insertionSort strLe _)
  · exact List.length_take_le _ _
  · intro c hc
    have h1 := List.take_subset _ _ hc
    have h2 := (List.perm_insertionSort strLe _).mem_iff.mp h1
    have h3 := List.mem_dedup.mp h2
    have h4 := List.mem_filter.mp h3
    exact ⟨h4.1, mem_of_contains h4.2⟩
  · intro hlen c h1 h2
    have hm : c ∈ ((childrenOf rels a).filter
        (fun c => (childrenOf rels b).contains c)).dedup :=
      List.mem_dedup.mpr (List.mem_filter.mpr ⟨h1, contains_of_mem h2⟩)
    have hm2 := (List.perm_insertionSort strLe _).mem_iff.mpr hm
    show c ∈ (List.insertionSort strLe _).take 8
    rw [List.take_of_length_le (by
      rw [(List.perm_insertionSort strLe _).length_eq]
      exact hlen)]
    exact hm2
  · intro h
    have h0 : childrenOf rels a = [] := by
      rw [childrenOf, List.filterMap_eq_nil_iff]
      intro r hr
      have hne := h r hr
      simp [hne]
    simp [common_children, h0]

/-- C1 witness: the query evaluated where the first parent appears in
no relationship (empty contribution, empty intersection), and a
membership derived through the cap-respecting completeness direction. -/
theorem C1_common_children_intersection_witness :
    common_children [[("parentId", Value.str "eddard"),
        ("childId", Value.str "robb")]] "nobody" "eddard" = [] ∧
    "robb" ∈ common_children
      [[("parentId", Value.str "eddard"), ("childId", Value.str "robb")],
       [("parentId", Value.str "catelyn"), ("childId", Value.str "robb")]]
      "eddard" "catelyn" := by
  constructor
  · exact (C1_common_children_intersection _ "nobody" "eddard").2.2.2.2.1 (by decide)
  · exact (C1_common_children_intersection _ "eddard" "catelyn").2.2.2.1
      (by decide) "robb" (by decide) (by decide)

/-- C9 counterexample: a non-alphanumeric character that is not a
separator is removed rather than collapsed to a hyphen: `slugify
"a!b"` is `"ab"`, not the `"a-b"` the claimed general rule (every
non-alphanumeric run becomes a single hyphen) would produce. -/
theorem C9_counterexample : slugify "a!b" = "ab" ∧ ("ab" : String) ≠ "a-b" :=
  ⟨rfl, by decide⟩

/-- C9 (amended): slugify produces a lowercase string of alphanumerics
and hyphens: separator characters (whitespace, hyphens, underscores,
dots) become hyphens with runs collapsed to a single hyphen, other
non-alphanumerics are removed, the length is capped at 64, and empty
or degenerate input yields the fixed default "family"; in particular
"John Doe!!" maps to "john-doe" and "a---b" to "a-b". -/
theorem C9_slug_sanitization (s : String) :
    (∀ c ∈ (slugify s).data, (c.isLower || c.isDigit || c == Char.ofNat 45) = true) ∧
    hasDD (slugify s).data = false ∧
    (slugify s).data.length ≤ 64 ∧
    slugify s ≠ "" ∧
    slugify "John Doe!!" = "john-doe" ∧
    slugify "a---b" = "a-b" ∧
    slugify "a_b.c d" = "a-b-c-d" ∧
    slugify "" = "family" ∧
    slugify "!!!" = "family" := by
  refine ⟨?_, ?_, ?_, ?_, rfl, rfl, rfl, rfl, rfl⟩
  · simp only [slugify]
    split
    · intro c hc
      revert c
      decide
    · intro c hc
      have h1 := List.take_subset _ _ hc
      rcases mem_collapseIter h1 with h2 | h2
      · have h3 := pyStrip_subset _ _ h2
        rcases List.mem_filterMap.mp h3 with ⟨d, hd, hsc⟩
        rcases List.mem_map.mp hd with ⟨d0, _, rfl⟩
        exact slugChar_toLower hsc
      · simp [h2]
  · simp only [slugify]
    split
    · decide
    · exact hasDD_slug _
  · simp only [slugify]
    split
    · decide
    · exact List.length_take_le _ _
  · simp only [slugify]
    split
    · decide
    · rename_i hne
      intro hcontra
      apply hne
      rw [List.isEmpty_iff]
      exact congrArg String.data hcontra

/-- C9 witness: the character-class property applied at the concrete
input "John": the first character of the slug is the lowercase j. -/
theorem C9_slug_sanitization_witness :
    ((Char.ofNat 106).isLower || (Char.ofNat 106).isDigit ||
      (Char.ofNat 106 == Char.ofNat 45)) = true :=
  (C9_slug_sanitization "John").1 (Char.ofNat 106) (by decide)

end App
